import Mathlib

/-!
Verification development for the keyv-duckdb repository.

The development shallowly embeds the connection lifecycle and
operation-serialization core of the repository:

* `KeyvDuckDB.JValue` and its JSON codec model the JSON-serializable values a
  caller may pass to `set`/`setMany` (numeric payloads are modelled with
  integer numerics; IEEE-754 printing/parsing of non-integer numbers is a
  property of the host runtime, outside this embedding, and JSON texts are
  modelled without insignificant whitespace, which is all `JSON.stringify`
  ever emits).
* `KeyvDuckDB.Store` and its operations embed the `KeyvDuckDB` class of
  `src/keyv-duckdb.ts`: the admission guard (`beginOperation`/`endOperation`),
  key validation, lazy connection binding with one-shot schema creation, the
  SQL statement texts and their bound parameters (recorded in `sqlLog`), and
  the table contents (`db`, a list of key/value rows kept unique by primary
  key).
* `KeyvDuckDB.Sys`/`KeyvDuckDB.stepSys` give a small-step interleaving
  semantics for `dispose()` running concurrently with operation admission.
* `KeyvDuckDB.Registry` embeds `src/connection-manager.ts`.
* `KeyvDuckDB.queueOperation`/`KeyvDuckDB.runQueue` embed the settled-promise
  semantics of the per-instance serial operation queue.
-/

namespace KeyvDuckDB

/-! ## JSON values and the JSON codec -/

/-- JSON-serializable values passed to `set`, with integer numerics. -/
inductive JValue where
  | jNull : JValue
  | jBool : Bool → JValue
  | jNum : Int → JValue
  | jStr : String → JValue
  | jArr : List JValue → JValue
  | jObj : List (String × JValue) → JValue

/-- Opening brace character, written numerically. -/
def lbraceChar : Char := Char.ofNat 123

/-- Closing brace character, written numerically. -/
def rbraceChar : Char := Char.ofNat 125

/-- Single quote character, written numerically. -/
def squoteChar : Char := Char.ofNat 39

/-- Hex digit character (lower case), as emitted by JSON string escapes. -/
def hexDigitChar (n : Nat) : Char :=
  if n < 10 then Char.ofNat (48 + n) else Char.ofNat (87 + n)

/-- Escape one character the way `JSON.stringify` escapes characters inside
string literals: quote and backslash get a backslash escape, the common
control characters get their shorthand escapes, the remaining control
characters get a `\u00XX` escape, and everything else is emitted verbatim. -/
def escapeChar (c : Char) : List Char :=
  if c = '"' then ['\\', '"']
  else if c = '\\' then ['\\', '\\']
  else if c = '\n' then ['\\', 'n']
  else if c = '\t' then ['\\', 't']
  else if c = '\r' then ['\\', 'r']
  else if c = Char.ofNat 8 then ['\\', 'b']
  else if c = Char.ofNat 12 then ['\\', 'f']
  else if c.toNat < 32 then
    ['\\', 'u', '0', '0', hexDigitChar (c.toNat / 16), hexDigitChar (c.toNat % 16)]
  else [c]

/-- Escape every character of a string body. -/
def escapeList : List Char → List Char
  | [] => []
  | c :: cs => escapeChar c ++ escapeList cs

/-- A JSON string literal: quote, escaped body, quote. -/
def quoteChars (s : List Char) : List Char :=
  '"' :: escapeList s ++ ['"']

/-- Decimal digits of a natural number, most significant first. -/
def natDigits (n : Nat) : List Char :=
  if n < 10 then [Char.ofNat (48 + n)]
  else natDigits (n / 10) ++ [Char.ofNat (48 + n % 10)]
termination_by n
decreasing_by
  exact Nat.div_lt_self (by omega) (by omega)

/-- Decimal rendering of an integer, as `JSON.stringify` prints an
integer-valued number. -/
def intChars (n : Int) : List Char :=
  if n < 0 then '-' :: natDigits n.natAbs else natDigits n.natAbs

mutual

/-- Embeds `JSON.stringify` on the modelled values (no whitespace). -/
def stringifyChars : JValue → List Char
  | .jNull => ['n', 'u', 'l', 'l']
  | .jBool true => ['t', 'r', 'u', 'e']
  | .jBool false => ['f', 'a', 'l', 's', 'e']
  | .jNum n => intChars n
  | .jStr s => quoteChars s.data
  | .jArr xs => '[' :: stringifyElems xs ++ [']']
  | .jObj kvs => lbraceChar :: stringifyMembers kvs ++ [rbraceChar]

/-- Comma-separated renderings of array elements. -/
def stringifyElems : List JValue → List Char
  | [] => []
  | [x] => stringifyChars x
  | x :: y :: xs => stringifyChars x ++ ',' :: stringifyElems (y :: xs)

/-- Comma-separated renderings of object members. -/
def stringifyMembers : List (String × JValue) → List Char
  | [] => []
  | [(k, v)] => quoteChars k.data ++ ':' :: stringifyChars v
  | (k, v) :: m :: kvs =>
    quoteChars k.data ++ ':' :: stringifyChars v ++ ',' :: stringifyMembers (m :: kvs)

end

/-- The string produced by `JSON.stringify`. -/
def jsonStringify (v : JValue) : String :=
  String.mk (stringifyChars v)

/-- Embeds line 244 of `keyv-duckdb.ts`:
`typeof value === 'string' ? value : JSON.stringify(value)`. -/
def storedText : JValue → String
  | .jStr s => s
  | .jNull => jsonStringify .jNull
  | .jBool b => jsonStringify (.jBool b)
  | .jNum n => jsonStringify (.jNum n)
  | .jArr xs => jsonStringify (.jArr xs)
  | .jObj kvs => jsonStringify (.jObj kvs)

/-- Numeric value of a hexadecimal digit character. -/
def hexVal (c : Char) : Option Nat :=
  if 48 ≤ c.toNat ∧ c.toNat ≤ 57 then some (c.toNat - 48)
  else if 97 ≤ c.toNat ∧ c.toNat ≤ 102 then some (c.toNat - 87)
  else if 65 ≤ c.toNat ∧ c.toNat ≤ 70 then some (c.toNat - 55)
  else none

/-- Decode four hexadecimal digit characters into a code point. -/
def decodeHex4 (h1 h2 h3 h4 : Char) : Option Nat :=
  (hexVal h1).bind fun a =>
    (hexVal h2).bind fun b =>
      (hexVal h3).bind fun c =>
        (hexVal h4).map fun d => ((a * 16 + b) * 16 + c) * 16 + d

/-- Parse the body of a JSON string literal (after the opening quote),
decoding escapes; returns the decoded characters and the remaining input. -/
def parseStringBody : List Char → Option (List Char × List Char)
  | [] => none
  | c :: rest =>
    if c = '"' then some ([], rest)
    else if c = '\\' then
      match rest with
      | [] => none
      | e :: rest2 =>
        if e = '"' ∨ e = '\\' ∨ e = '/' then
          (parseStringBody rest2).map (fun p => (e :: p.1, p.2))
        else if e = 'n' then (parseStringBody rest2).map (fun p => ('\n' :: p.1, p.2))
        else if e = 't' then (parseStringBody rest2).map (fun p => ('\t' :: p.1, p.2))
        else if e = 'r' then (parseStringBody rest2).map (fun p => ('\r' :: p.1, p.2))
        else if e = 'b' then
          (parseStringBody rest2).map (fun p => (Char.ofNat 8 :: p.1, p.2))
        else if e = 'f' then
          (parseStringBody rest2).map (fun p => (Char.ofNat 12 :: p.1, p.2))
        else if e = 'u' then
          match rest2 with
          | h1 :: h2 :: h3 :: h4 :: rest3 =>
            (decodeHex4 h1 h2 h3 h4).bind fun code =>
              (parseStringBody rest3).map (fun p => (Char.ofNat code :: p.1, p.2))
          | _ => none
        else none
    else (parseStringBody rest).map (fun p => (c :: p.1, p.2))

/-- Decimal digit test on characters. -/
def isDig (c : Char) : Bool :=
  48 ≤ c.toNat && c.toNat ≤ 57

/-- Accumulate decimal digit characters into a natural number. -/
def natFromDigitsAux (acc : Nat) : List Char → Nat
  | [] => acc
  | c :: cs => natFromDigitsAux (acc * 10 + (c.toNat - 48)) cs

/-- Parse a JSON number (optional minus sign followed by decimal digits). -/
def parseNumberChars (s : List Char) : Option (Int × List Char) :=
  match s with
  | [] => none
  | c :: rest =>
    if c = '-' then
      let ds := rest.takeWhile isDig
      if ds.length = 0 then none
      else some (-(natFromDigitsAux 0 ds : Int), rest.dropWhile isDig)
    else
      let ds := s.takeWhile isDig
      if ds.length = 0 then none
      else some ((natFromDigitsAux 0 ds : Int), s.dropWhile isDig)

mutual

/-- Fuel-indexed recursive-descent parser for one JSON value; models
`JSON.parse` on whitespace-free JSON texts. -/
def parseValue : Nat → List Char → Option (JValue × List Char)
  | 0, _ => none
  | Nat.succ fuel, s =>
    match s with
    | [] => none
    | c :: rest =>
      if c = 'n' then
        match rest with
        | 'u' :: 'l' :: 'l' :: r => some (.jNull, r)
        | _ => none
      else if c = 't' then
        match rest with
        | 'r' :: 'u' :: 'e' :: r => some (.jBool true, r)
        | _ => none
      else if c = 'f' then
        match rest with
        | 'a' :: 'l' :: 's' :: 'e' :: r => some (.jBool false, r)
        | _ => none
      else if c = '"' then
        (parseStringBody rest).map (fun p => (.jStr (String.mk p.1), p.2))
      else if c = '[' then
        match rest with
        | c2 :: r =>
          if c2 = ']' then some (.jArr [], r)
          else (parseElems fuel rest).map (fun p => (.jArr p.1, p.2))
        | [] => none
      else if c = lbraceChar then
        match rest with
        | c2 :: r =>
          if c2 = rbraceChar then some (.jObj [], r)
          else (parseMembers fuel rest).map (fun p => (.jObj p.1, p.2))
        | [] => none
      else
        (parseNumberChars s).map (fun p => (.jNum p.1, p.2))

/-- Parse one or more comma-separated array elements up to the closing
bracket. -/
def parseElems : Nat → List Char → Option (List JValue × List Char)
  | 0, _ => none
  | Nat.succ fuel, s =>
    (parseValue fuel s).bind fun p =>
      match p.2 with
      | c :: r2 =>
        if c = ',' then (parseElems fuel r2).map (fun q => (p.1 :: q.1, q.2))
        else if c = ']' then some ([p.1], r2)
        else none
      | [] => none

/-- Parse one or more comma-separated object members up to the closing
brace. -/
def parseMembers : Nat → List Char → Option (List (String × JValue) × List Char)
  | 0, _ => none
  | Nat.succ fuel, s =>
    match s with
    | '"' :: rest =>
      (parseStringBody rest).bind fun kp =>
        match kp.2 with
        | ':' :: r2 =>
          (parseValue fuel r2).bind fun vp =>
            match vp.2 with
            | c :: r4 =>
              if c = ',' then
                (parseMembers fuel r4).map
                  (fun q => ((String.mk kp.1, vp.1) :: q.1, q.2))
              else if c = rbraceChar then some ([(String.mk kp.1, vp.1)], r4)
              else none
            | [] => none
        | _ => none
    | _ => none

end

/-- Models `JSON.parse` (on whitespace-free texts): parse one value and
require the whole input to be consumed. -/
def jsonParse (s : String) : Option JValue :=
  match parseValue (s.data.length + 1) s.data with
  | some (v, []) => some v
  | _ => none

mutual

/-- Fuel consumed by `parseValue` when reading back a rendered value. -/
def cost : JValue → Nat
  | .jNull => 1
  | .jBool _ => 1
  | .jNum _ => 1
  | .jStr _ => 1
  | .jArr xs => 1 + costElems xs
  | .jObj kvs => 1 + costMembers kvs

/-- Fuel consumed by `parseElems` when reading back rendered elements. -/
def costElems : List JValue → Nat
  | [] => 0
  | x :: xs => 1 + cost x + costElems xs

/-- Fuel consumed by `parseMembers` when reading back rendered members. -/
def costMembers : List (String × JValue) → Nat
  | [] => 0
  | (_, v) :: kvs => 1 + cost v + costMembers kvs

end

/-- A continuation input whose head cannot extend a decimal number. -/
def digitFree (rest : List Char) : Prop :=
  ∀ c, rest.head? = some c → isDig c = false

/-! ## The store instance and its operations -/

/-- One SQL statement handed to the engine: its text and the parameters
bound to it through the parameter-binding mechanism. -/
structure Stmt where
  sql : String
  params : List (String × String)
deriving Repr, DecidableEq

/-- State of one `KeyvDuckDB` store instance, together with the contents of
its table (`db`) and the statements it has handed to the engine
(`sqlLog`). -/
structure Store where
  disposed : Bool
  pending : Int
  nmspace : Option String
  table : String
  encrypted : Bool
  keySize : Option Nat
  connectionBound : Bool
  schemaInitialized : Bool
  db : List (String × String)
  sqlLog : List Stmt
deriving Repr, DecidableEq

/-- The error message thrown by `beginOperation` (line 116). -/
def disposedMsg : String :=
  "KeyvDuckDB has been disposed and cannot be used"

/-- Embeds `beginOperation` (lines 114-119): throws if disposed, otherwise
increments the pending-operation counter. -/
def beginOperation (s : Store) : Except String Store :=
  if s.disposed then .error disposedMsg
  else .ok { s with pending := s.pending + 1 }

/-- Embeds `endOperation` (lines 124-126). -/
def endOperation (s : Store) : Store :=
  { s with pending := s.pending - 1 }

/-- Embeds `getTableRef` (lines 103-108). -/
def getTableRef (s : Store) : String :=
  if s.connectionBound && s.encrypted then "store." ++ s.table else s.table

/-- The schema statement issued on first connection (line 144). -/
def createTableSql (tableRef : String) : String :=
  "CREATE TABLE IF NOT EXISTS " ++ tableRef ++ " (k TEXT PRIMARY KEY, v TEXT)"

/-- Embeds the instance-level `getConnection` (lines 131-149) at the state
level: bind a connection if none is bound, and issue the schema statement
once. -/
def ensureConnection (s : Store) : Store :=
  if s.connectionBound then s
  else
    let s1 := { s with connectionBound := true }
    if s1.schemaInitialized then s1
    else
      { s1 with
        schemaInitialized := true,
        sqlLog := s1.sqlLog ++ [⟨createTableSql (getTableRef s1), []⟩] }

/-- Record one statement handed to the engine. -/
def logStmt (s : Store) (sql : String) (params : List (String × String)) : Store :=
  { s with sqlLog := s.sqlLog ++ [⟨sql, params⟩] }

/-- Embeds `validateKey` (lines 186-193). -/
def validateKey (s : Store) (key : String) : Except String Unit :=
  if key.length = 0 then .error "key required"
  else
    match s.keySize with
    | some m =>
      if key.length > m then
        .error ("key length " ++ toString key.length ++ " exceeds maximum " ++ toString m)
      else .ok ()
    | none => .ok ()

/-- Validate every key of a batch, in order, failing on the first invalid
one (the loops in `setMany`/`deleteMany`/`hasMany`). -/
def validateKeys (s : Store) : List String → Except String Unit
  | [] => .ok ()
  | k :: ks =>
    match validateKey s k with
    | .error e => .error e
    | .ok _ => validateKeys s ks

/-- Result of `SELECT v FROM t WHERE k = $key` under the primary-key schema:
the first row whose key matches. -/
def sqlSelectByKey (db : List (String × String)) (key : String) : Option String :=
  ((db.filter (fun r => r.1 == key)).head?).map Prod.snd

/-- Effect of `INSERT OR REPLACE` on the primary-key table: replace the
existing row for the key or append a new one. -/
def insertReplace : List (String × String) → String → String → List (String × String)
  | [], k, v => [(k, v)]
  | (k0, v0) :: rest, k, v =>
    if k0 == k then (k, v) :: rest else (k0, v0) :: insertReplace rest k v

/-- Lookup in a JavaScript `Map` built from a row list: later entries win. -/
def jsMapGet (rows : List (String × String)) (key : String) : Option String :=
  rows.foldl (fun acc r => if r.1 == key then some r.2 else acc) none

/-- Placeholder list `$k0,$k1,...` used by the batch operations. -/
def placeholders (n : Nat) : String :=
  String.intercalate "," ((List.range n).map (fun i => "$k" ++ toString i))

/-- Named parameters `k0 ↦ keys[0], ...` used by the batch operations. -/
def keyParams (keys : List String) : List (String × String) :=
  keys.enum.map (fun p => ("k" ++ toString p.1, p.2))

/-- SQL text of the `get` query (line 203). -/
def getSql (tableRef : String) : String :=
  "SELECT v FROM " ++ tableRef ++ " WHERE k = $key"

/-- SQL text of the `set` upsert (line 245). -/
def insertSql (tableRef : String) : String :=
  "INSERT OR REPLACE INTO " ++ tableRef ++ " (k, v) VALUES ($key, $value)"

/-- SQL text of the `getMany` query (line 225). -/
def getManySql (tableRef : String) (n : Nat) : String :=
  "SELECT k, v FROM " ++ tableRef ++ " WHERE k IN (" ++ placeholders n ++ ")"

/-- Embeds `get` (lines 198-208). -/
def get (s : Store) (key : String) : Except String (Option String) × Store :=
  match beginOperation s with
  | .error e => (.error e, s)
  | .ok s1 =>
    match validateKey s1 key with
    | .error e => (.error e, endOperation s1)
    | .ok _ =>
      let s2 := ensureConnection s1
      let s3 := logStmt s2 (getSql (getTableRef s2)) [("key", key)]
      (.ok (sqlSelectByKey s3.db key), endOperation s3)

/-- Embeds `getMany` (lines 214-231): empty input returns immediately,
before the admission guard and without issuing any query. -/
def getMany (s : Store) (keys : List String) :
    Except String (List (Option String)) × Store :=
  if keys.length = 0 then (.ok [], s)
  else
    match beginOperation s with
    | .error e => (.error e, s)
    | .ok s1 =>
      let s2 := ensureConnection s1
      let s3 := logStmt s2 (getManySql (getTableRef s2) keys.length) (keyParams keys)
      let rows := s3.db.filter (fun r => keys.contains r.1)
      (.ok (keys.map (fun k => jsMapGet rows k)), endOperation s3)

/-- Embeds `set` (lines 238-250). -/
def set (s : Store) (key : String) (value : JValue) : Except String Bool × Store :=
  match beginOperation s with
  | .error e => (.error e, s)
  | .ok s1 =>
    match validateKey s1 key with
    | .error e => (.error e, endOperation s1)
    | .ok _ =>
      let s2 := ensureConnection s1
      let stored := storedText value
      let s3 := logStmt s2 (insertSql (getTableRef s2)) [("key", key), ("value", stored)]
      let s4 := { s3 with db := insertReplace s3.db key stored }
      (.ok true, endOperation s4)

/-- Multi-row upsert placeholder list `($k0, $v0),($k1, $v1),...`
(line 264). -/
def setManyPlaceholders (n : Nat) : String :=
  String.intercalate "," ((List.range n).map (fun i =>
    "($k" ++ toString i ++ ", $v" ++ toString i ++ ")"))

/-- SQL text of the `setMany` upsert (line 270). -/
def setManySql (tableRef : String) (n : Nat) : String :=
  "INSERT OR REPLACE INTO " ++ tableRef ++ " (k, v) VALUES " ++ setManyPlaceholders n

/-- Named parameters of the `setMany` upsert (lines 265-269). -/
def setManyParams (entries : List (String × JValue)) : List (String × String) :=
  (entries.enum.map (fun p =>
    [("k" ++ toString p.1, p.2.1), ("v" ++ toString p.1, storedText p.2.2)])).flatten

/-- Embeds `setMany` (lines 257-274): empty input returns immediately,
before the admission guard. -/
def setMany (s : Store) (entries : List (String × JValue)) :
    Except String Unit × Store :=
  if entries.length = 0 then (.ok (), s)
  else
    match beginOperation s with
    | .error e => (.error e, s)
    | .ok s1 =>
      match validateKeys s1 (entries.map Prod.fst) with
      | .error e => (.error e, endOperation s1)
      | .ok _ =>
        let s2 := ensureConnection s1
        let s3 := logStmt s2 (setManySql (getTableRef s2) entries.length)
          (setManyParams entries)
        let s4 := { s3 with
          db := entries.foldl (fun db e => insertReplace db e.1 (storedText e.2)) s3.db }
        (.ok (), endOperation s4)

/-- SQL text of the existence count query (lines 285, 327). -/
def countSql (tableRef : String) : String :=
  "SELECT COUNT(*) as count FROM " ++ tableRef ++ " WHERE k = $key"

/-- SQL text of the single-key delete (line 288). -/
def deleteSql (tableRef : String) : String :=
  "DELETE FROM " ++ tableRef ++ " WHERE k = $key"

/-- Embeds `delete` (lines 280-294). -/
def delete (s : Store) (key : String) : Except String Bool × Store :=
  match beginOperation s with
  | .error e => (.error e, s)
  | .ok s1 =>
    match validateKey s1 key with
    | .error e => (.error e, endOperation s1)
    | .ok _ =>
      let s2 := ensureConnection s1
      let s3 := logStmt s2 (countSql (getTableRef s2)) [("key", key)]
      let existed := (s3.db.filter (fun r => r.1 == key)).length > 0
      if existed then
        let s4 := logStmt s3 (deleteSql (getTableRef s3)) [("key", key)]
        let s5 := { s4 with db := s4.db.filter (fun r => !(r.1 == key)) }
        (.ok true, endOperation s5)
      else (.ok false, endOperation s3)

/-- SQL text of the batch delete (line 312). -/
def deleteManySql (tableRef : String) (n : Nat) : String :=
  "DELETE FROM " ++ tableRef ++ " WHERE k IN (" ++ placeholders n ++ ")"

/-- Embeds `deleteMany` (lines 300-317): empty input resolves to `true`
immediately, before the admission guard. -/
def deleteMany (s : Store) (keys : List String) : Except String Bool × Store :=
  if keys.length = 0 then (.ok true, s)
  else
    match beginOperation s with
    | .error e => (.error e, s)
    | .ok s1 =>
      match validateKeys s1 keys with
      | .error e => (.error e, endOperation s1)
      | .ok _ =>
        let s2 := ensureConnection s1
        let s3 := logStmt s2 (deleteManySql (getTableRef s2) keys.length) (keyParams keys)
        let s4 := { s3 with db := s3.db.filter (fun r => !(keys.contains r.1)) }
        (.ok true, endOperation s4)

/-- Embeds `has` (lines 322-332). -/
def has (s : Store) (key : String) : Except String Bool × Store :=
  match beginOperation s with
  | .error e => (.error e, s)
  | .ok s1 =>
    match validateKey s1 key with
    | .error e => (.error e, endOperation s1)
    | .ok _ =>
      let s2 := ensureConnection s1
      let s3 := logStmt s2 (countSql (getTableRef s2)) [("key", key)]
      (.ok ((s3.db.filter (fun r => r.1 == key)).length > 0), endOperation s3)

/-- SQL text of the batch existence query (line 349). -/
def hasManySql (tableRef : String) (n : Nat) : String :=
  "SELECT k FROM " ++ tableRef ++ " WHERE k IN (" ++ placeholders n ++ ")"

/-- Embeds `hasMany` (lines 337-355): empty input resolves to `[]`
immediately, before the admission guard. -/
def hasMany (s : Store) (keys : List String) : Except String (List Bool) × Store :=
  if keys.length = 0 then (.ok [], s)
  else
    match beginOperation s with
    | .error e => (.error e, s)
    | .ok s1 =>
      match validateKeys s1 keys with
      | .error e => (.error e, endOperation s1)
      | .ok _ =>
        let s2 := ensureConnection s1
        let s3 := logStmt s2 (hasManySql (getTableRef s2) keys.length) (keyParams keys)
        let rows := s3.db.filter (fun r => keys.contains r.1)
        (.ok (keys.map (fun k => rows.any (fun r => r.1 == k))), endOperation s3)

/-- SQL `LIKE` matching as the engine evaluates it: `%` matches any
character sequence (the rest of the pattern must match some suffix of the
string), `_` matches exactly one character, every other pattern character
matches itself (no escape clause is used by the code). -/
def likeMatch : List Char → List Char → Bool
  | [], s => s.isEmpty
  | p :: ps, s =>
    if p = '%' then s.tails.any (fun t => likeMatch ps t)
    else
      match s with
      | [] => false
      | c :: s2 => (p = '_' || p = c) && likeMatch ps s2

/-- SQL text of the namespace-scoped clear (line 367). -/
def clearNsSql (tableRef : String) : String :=
  "DELETE FROM " ++ tableRef ++ " WHERE k LIKE $pattern"

/-- SQL text of the full clear (line 370). -/
def clearAllSql (tableRef : String) : String :=
  "DELETE FROM " ++ tableRef

/-- Embeds `clear` (lines 361-375). -/
def clear (s : Store) : Except String Unit × Store :=
  match beginOperation s with
  | .error e => (.error e, s)
  | .ok s1 =>
    let s2 := ensureConnection s1
    match s2.nmspace with
    | some ns =>
      let pattern := ns ++ ":%"
      let s3 := logStmt s2 (clearNsSql (getTableRef s2)) [("pattern", pattern)]
      let s4 := { s3 with db := s3.db.filter (fun r => !(likeMatch pattern.data r.1.data)) }
      (.ok (), endOperation s4)
    | none =>
      let s3 := logStmt s2 (clearAllSql (getTableRef s2)) []
      let s4 := { s3 with db := [] }
      (.ok (), endOperation s4)

/-- SQL text of the namespace-filtered iterator query (line 391). -/
def iterNsSql (tableRef : String) : String :=
  "SELECT k, v FROM " ++ tableRef ++ " WHERE k LIKE $pattern ORDER BY k"

/-- SQL text of the unfiltered iterator query (line 397). -/
def iterAllSql (tableRef : String) : String :=
  "SELECT k, v FROM " ++ tableRef ++ " ORDER BY k"

/-- Insert one row into a key-sorted row list. -/
def insertSorted (row : String × String) : List (String × String) → List (String × String)
  | [] => [row]
  | r :: rest => if row.1 ≤ r.1 then row :: r :: rest else r :: insertSorted row rest

/-- Rows sorted by key ascending, as `ORDER BY k` returns them. -/
def sortByKey (l : List (String × String)) : List (String × String) :=
  l.foldr insertSorted []

/-- Embeds `iterator` (lines 382-405), materialized: the generator admits
itself when first iterated, queries the full matching row set ordered by
key, and yields it. -/
def iteratorRun (s : Store) (nsArg : Option String) :
    Except String (List (String × String)) × Store :=
  match beginOperation s with
  | .error e => (.error e, s)
  | .ok s1 =>
    let s2 := ensureConnection s1
    match nsArg.or s2.nmspace with
    | some ns =>
      let pattern := ns ++ ":%"
      let s3 := logStmt s2 (iterNsSql (getTableRef s2)) [("pattern", pattern)]
      let rows := sortByKey (s3.db.filter (fun r => likeMatch pattern.data r.1.data))
      (.ok rows, endOperation s3)
    | none =>
      let s3 := logStmt s2 (iterAllSql (getTableRef s2)) []
      (.ok (sortByKey s3.db), endOperation s3)

/-! ## Dispose as a small-step process interleaved with admission -/

/-- Control point of the `dispose()` procedure (lines 420-433): not yet
invoked, suspended in the pending-operation wait loop, about to release the
bound connection, or finished. -/
inductive DisposePhase where
  | idle : DisposePhase
  | waiting : DisposePhase
  | releasing : DisposePhase
  | finished : DisposePhase
deriving Repr, DecidableEq

/-- A store together with the control point of its dispose procedure. -/
structure Sys where
  store : Store
  phase : DisposePhase
deriving Repr, DecidableEq

/-- Interleaved events: an operation attempting admission, an operation
finishing, the caller invoking `dispose()` (its body runs synchronously up
to the first suspension), and the suspended dispose procedure resuming at a
poll tick. -/
inductive Event where
  | beginOp : Event
  | endOp : Event
  | invokeDispose : Event
  | poll : Event
deriving Repr, DecidableEq

/-- Small-step semantics of the dispose/admission interplay. `dispose()`
first waits for `pending` to reach zero and only then sets `disposed`
(lines 420-433); `beginOperation` admits whenever `disposed` is still
false. The observation reports the outcome of an admission attempt. -/
def stepSys (sys : Sys) : Event → Sys × Option (Except String Unit)
  | .beginOp =>
    match beginOperation sys.store with
    | .error e => (sys, some (.error e))
    | .ok s => ({ sys with store := s }, some (.ok ()))
  | .endOp => ({ sys with store := endOperation sys.store }, none)
  | .invokeDispose =>
    if sys.store.disposed then ({ sys with phase := .finished }, none)
    else if sys.store.pending > 0 then ({ sys with phase := .waiting }, none)
    else (⟨{ sys.store with disposed := true }, .releasing⟩, none)
  | .poll =>
    match sys.phase with
    | .waiting =>
      if sys.store.pending > 0 then (sys, none)
      else (⟨{ sys.store with disposed := true }, .releasing⟩, none)
    | .releasing => (⟨{ sys.store with connectionBound := false }, .finished⟩, none)
    | _ => (sys, none)

/-- Run a list of events, collecting the admission observations. -/
def runTrace (sys : Sys) : List Event → Sys × List (Option (Except String Unit))
  | [] => (sys, [])
  | e :: es =>
    let (sys1, obs) := stepSys sys e
    let (sys2, obss) := runTrace sys1 es
    (sys2, obs :: obss)

/-! ## The connection registry (`src/connection-manager.ts`) -/

/-- One registry record (the `ConnectionInfo` of `connection-manager.ts`);
`id` models the reference identity of the connection handle. -/
structure ConnInfo where
  id : Nat
  dbPath : String
  encrypted : Bool
deriving Repr, DecidableEq

/-- The process-wide connection registry: the live-connection set plus a
freshness counter modelling allocation of new connection handles. -/
structure Registry where
  connections : List ConnInfo
  nextId : Nat
deriving Repr, DecidableEq

/-- The registry with no live connections. -/
def emptyRegistry : Registry := ⟨[], 0⟩

/-- Registry well-formedness: every registered id was allocated. -/
def Registry.wf (r : Registry) : Prop :=
  ∀ c ∈ r.connections, c.id < r.nextId

/-- Live-connection count (`getConnectionCount`, lines 101-103). -/
def Registry.count (r : Registry) : Nat := r.connections.length

/-- Embeds line 41 of `connection-manager.ts`: the `ATTACH` command built by
template-literal interpolation of the database path and the encryption
key. -/
def attachCommand (dbPath encryptionKey : String) : String :=
  "ATTACH " ++ String.mk [squoteChar] ++ dbPath ++ String.mk [squoteChar] ++
    " AS store (ENCRYPTION_KEY " ++ String.mk [squoteChar] ++ encryptionKey ++
    String.mk [squoteChar] ++ ")"

/-- Embeds the registry-level `getConnection` (lines 24-53): always creates
a brand-new connection record, registers it, and returns it together with
the SQL it ran while opening (the `ATTACH` command in encrypted mode). -/
def acquire (r : Registry) (dbPath : String) (encryptionKey : Option String) :
    Nat × List String × Registry :=
  let sqls := match encryptionKey with
    | some key => [attachCommand dbPath key]
    | none => []
  let info : ConnInfo := ⟨r.nextId, dbPath, encryptionKey.isSome⟩
  (r.nextId, sqls, ⟨r.connections ++ [info], r.nextId + 1⟩)

/-- Remove the first record with the given id. -/
def removeFirstById : List ConnInfo → Nat → List ConnInfo
  | [], _ => []
  | c :: rest, cid => if c.id = cid then rest else c :: removeFirstById rest cid

/-- Embeds `releaseConnection` (lines 72-96): locate the record, remove it
from the registry before attempting cleanup, swallow cleanup errors.
`cleanupFails` models a checkpoint/detach failure; the observation reports
whether cleanup succeeded (`none` when the connection was not found). -/
def releaseConnection (r : Registry) (cid : Nat) (cleanupFails : Bool) :
    Registry × Option Bool :=
  if r.connections.any (fun c => c.id = cid) then
    (⟨removeFirstById r.connections cid, r.nextId⟩, some (!cleanupFails))
  else (r, none)

/-- Embeds `closeAllConnections` (lines 109-131): the registry set is
cleared before the cleanup attempts are awaited, so the count is zero
regardless of individual failures; the observations report each
connection's cleanup outcome. -/
def closeAllConnections (r : Registry) (cleanupFails : Nat → Bool) :
    Registry × List Bool :=
  (⟨[], r.nextId⟩, r.connections.map (fun c => !cleanupFails c.id))

/-- Embeds the instance-level `getConnection` (lines 131-149) at the
binding level: a bound instance returns its connection untouched, an
unbound instance acquires a brand-new one from the registry and binds
it. Returns the connection handed back, the new binding, and the updated
registry. -/
def storeGetConnection (bound : Option Nat) (r : Registry) (dbPath : String)
    (encryptionKey : Option String) : Nat × Option Nat × Registry :=
  match bound with
  | some cid => (cid, some cid, r)
  | none =>
    let a := acquire r dbPath encryptionKey
    (a.1, some a.1, a.2.2)

/-! ## The serial operation queue (`queueOperation`, lines 154-162) -/

/-- A settled promise: fulfilled or rejected. -/
inductive POutcome (α : Type) where
  | ok : α → POutcome α
  | err : String → POutcome α
deriving Repr, DecidableEq

/-- Promise `then` with a fulfillment handler and a rejection handler. -/
def pThen (p : POutcome α) (onOk : α → POutcome β) (onErr : String → POutcome β) :
    POutcome β :=
  match p with
  | .ok a => onOk a
  | .err e => onErr e

/-- A queued operation: when its turn comes it appends its execution mark to
the shared log and settles with its own outcome. -/
def QOp : Type := List Nat → List Nat × POutcome Unit

/-- The callback attachment `queue.then(operation, operation)` (line 155):
the operation runs once the prior queue promise has settled, regardless of
whether it was fulfilled or rejected. -/
def settleThen (prev : POutcome Unit) (op : QOp) (log : List Nat) :
    List Nat × POutcome Unit :=
  match prev with
  | .ok _ => op log
  | .err _ => op log

/-- Embeds `queueOperation` (lines 154-162): the operation's result promise
is `operationQueue.then(operation, operation)`, and the queue is replaced by
`result.then(noop, noop)`, which only tracks settlement. Returns the
operation's own result, the new queue promise, and the updated log. -/
def queueOperation (queue : POutcome Unit) (op : QOp) (log : List Nat) :
    POutcome Unit × POutcome Unit × List Nat :=
  let r := settleThen queue op log
  let newQueue := pThen r.2 (fun _ => POutcome.ok ()) (fun _ => POutcome.ok ())
  (r.2, newQueue, r.1)

/-- Queue a list of operations in submission order and run the chain to
settlement, collecting every operation's own result. -/
def runQueue (queue : POutcome Unit) (ops : List QOp) (log : List Nat) :
    List (POutcome Unit) × POutcome Unit × List Nat :=
  match ops with
  | [] => ([], queue, log)
  | op :: rest =>
    let step := queueOperation queue op log
    let next := runQueue step.2.1 rest step.2.2
    (step.1 :: next.1, next.2.1, next.2.2)

/-- The i-th submitted operation: marks its execution in the log and settles
with the prescribed outcome. -/
def mkOp (i : Nat) (outcome : POutcome Unit) : QOp :=
  fun log => (log ++ [i], outcome)

/-! ## Concrete fixtures -/

/-- A freshly constructed store with default table name and no options. -/
def freshStore : Store :=
  ⟨false, 0, none, "keyv", false, none, false, false, [], []⟩

/-- A fully disposed store. -/
def disposedStore : Store :=
  { freshStore with disposed := true, connectionBound := false }

/-- An active store with one admitted in-flight operation, about to be
disposed. -/
def drainSys : Sys :=
  ⟨{ freshStore with
      pending := 1
      connectionBound := true
      schemaInitialized := true }, .idle⟩

/-- A store whose namespace contains the SQL LIKE wildcard symbol. -/
def wildcardNsStore : Store :=
  { freshStore with
      nmspace := some "x%"
      connectionBound := true
      schemaInitialized := true
      db := [("xa:1", "v1"), ("x%:b", "v2")] }

/-- The statement texts a store has handed to the engine, without the bound
parameters. -/
def sqlTexts (s : Store) : List String :=
  s.sqlLog.map Stmt.sql

/-- A populated store used by witnesses. -/
def sampleStore : Store :=
  { freshStore with
      connectionBound := true
      schemaInitialized := true
      db := [("ns:a", "1"), ("ns:b", "2"), ("other:c", "3")]
      nmspace := some "ns" }

end KeyvDuckDB

namespace KeyvDuckDB

/-! ## Theorems -/

theorem beginOperation_of_disposed (s : Store) (h : s.disposed = true) :
    beginOperation s = .error disposedMsg := by
  simp [beginOperation, h]

/-- C1 (counterexample): in the code, `dispose()` does not set the disposed
flag before waiting; invoking it on a store with one pending operation
leaves `disposed` false and suspended in the wait loop, and an operation
attempted after the invocation is still admitted by `beginOperation`. -/
theorem dispose_invocation_does_not_block_admission :
    (stepSys drainSys .invokeDispose).1.store.disposed = false ∧
    (stepSys drainSys .invokeDispose).1.phase = DisposePhase.waiting ∧
    (stepSys (stepSys drainSys .invokeDispose).1 .beginOp).2 =
      some (Except.ok ()) ∧
    (stepSys (stepSys drainSys .invokeDispose).1 .beginOp).1.store.pending = 2 :=
  ⟨rfl, rfl, rfl, rfl⟩

/-- C1 (amended): the first call to `dispose()` waits for
`pendingOperationCount` to reach zero and only then sets the disposed flag;
while it is waiting, `beginOperation` still admits new operations; the flag
is set exactly when the pending count has drained, after which no operation
is ever admitted again, and the flag is monotone under every event. -/
theorem dispose_waits_before_closing_admission (sys : Sys)
    (h1 : sys.store.disposed = false) (h2 : sys.store.pending > 0) :
    ((stepSys sys .invokeDispose).1.store.disposed = false ∧
      (stepSys sys .invokeDispose).1.phase = DisposePhase.waiting) ∧
    (stepSys (stepSys sys .invokeDispose).1 .beginOp).2 = some (Except.ok ()) ∧
    (∀ s : Store, s.pending > 0 → stepSys ⟨s, .waiting⟩ .poll = (⟨s, .waiting⟩, none)) ∧
    (∀ s : Store, s.pending ≤ 0 →
      (stepSys ⟨s, .waiting⟩ .poll).1 = ⟨{ s with disposed := true }, .releasing⟩) ∧
    (∀ s : Store, s.disposed = true → beginOperation s = .error disposedMsg) ∧
    (∀ (t : Sys) (e : Event), t.store.disposed = true →
      (stepSys t e).1.store.disposed = true) := by
  refine ⟨⟨?_, ?_⟩, ?_, ?_, ?_, ?_, ?_⟩
  · simp [stepSys, h1, h2]
  · simp [stepSys, h1, h2]
  · simp [stepSys, h1, h2, beginOperation]
  · intro s hs
    simp [stepSys, hs]
  · intro s hs
    have hng : ¬s.pending > 0 := by omega
    simp [stepSys, hng]
  · intro s hs
    simp [beginOperation, hs]
  · intro t e ht
    cases e <;> simp [stepSys, beginOperation, endOperation, ht]
    · cases hp : t.phase <;> simp [hp, ht]
      split <;> simp [ht]

theorem dispose_waits_before_closing_admission_witness :
    drainSys.store.disposed = false ∧ drainSys.store.pending > 0 ∧
    (stepSys drainSys .invokeDispose).1.store.disposed = false :=
  ⟨by decide, by decide,
    ((dispose_waits_before_closing_admission drainSys (by decide) (by decide)).1).1⟩

/-- C2: once disposed, every call to `get`, `set`, `delete`, `clear`, or
`iterator` (when iterated) fails immediately with the DisposedError message
(which contains the substring "disposed") and leaves the store unchanged,
and any further `dispose()` invocation is a no-op that neither throws nor
changes state. -/
theorem disposed_store_rejects_every_operation (s : Store) (h : s.disposed = true)
    (key : String) (v : JValue) (nsArg : Option String) (ph : DisposePhase) :
    get s key = (.error disposedMsg, s) ∧
    set s key v = (.error disposedMsg, s) ∧
    delete s key = (.error disposedMsg, s) ∧
    clear s = (.error disposedMsg, s) ∧
    iteratorRun s nsArg = (.error disposedMsg, s) ∧
    disposedMsg = "KeyvDuckDB has been " ++ "disposed" ++ " and cannot be used" ∧
    stepSys ⟨s, ph⟩ .invokeDispose = (⟨s, .finished⟩, none) := by
  have hb := beginOperation_of_disposed s h
  refine ⟨?_, ?_, ?_, ?_, ?_, by decide, ?_⟩
  · unfold get; rw [hb]
  · unfold set; rw [hb]
  · unfold delete; rw [hb]
  · unfold clear; rw [hb]
  · unfold iteratorRun; rw [hb]
  · simp [stepSys, h]

theorem disposed_store_rejects_every_operation_witness :
    disposedStore.disposed = true ∧
    get disposedStore "k" = (.error disposedMsg, disposedStore) :=
  ⟨by decide,
    (disposed_store_rejects_every_operation disposedStore (by decide) "k"
      JValue.jNull none .idle).1⟩

/-- C10: on a disposed store the batch operations with empty input succeed
instead of failing with a DisposedError, because their empty-input early
return precedes the admission guard: `getMany []` resolves to `[]`,
`setMany []` resolves, `deleteMany []` resolves to `true`, and
`hasMany []` resolves to `[]`. -/
theorem empty_batches_bypass_admission_guard (s : Store) (_h : s.disposed = true) :
    getMany s [] = (.ok [], s) ∧
    setMany s [] = (.ok (), s) ∧
    deleteMany s [] = (.ok true, s) ∧
    hasMany s [] = (.ok [], s) :=
  ⟨rfl, rfl, rfl, rfl⟩

theorem empty_batches_bypass_admission_guard_witness :
    disposedStore.disposed = true ∧
    getMany disposedStore [] = (.ok [], disposedStore) :=
  ⟨by decide, (empty_batches_bypass_admission_guard disposedStore (by decide)).1⟩

theorem runQueue_mkOp (outcomes : List (POutcome Unit)) :
    ∀ (i : Nat) (q : POutcome Unit) (log : List Nat),
      runQueue q ((outcomes.enumFrom i).map (fun p => mkOp p.1 p.2)) log =
        (outcomes, (if outcomes.isEmpty then q else .ok ()),
          log ++ List.range' i outcomes.length) := by
  induction outcomes with
  | nil => intro i q log; simp [runQueue, List.enumFrom]
  | cons o os ih =>
    intro i q log
    have hstep : queueOperation q (mkOp i o) log =
        (o, .ok (), log ++ [i]) := by
      cases q <;> cases o <;> rfl
    simp only [List.enumFrom, List.map, runQueue, hstep, ih (i + 1) (.ok ()) (log ++ [i])]
    simp [List.range'_succ, List.append_assoc]

/-- C3: operations submitted to the serial queue execute exactly once each,
in submission (FIFO) order, each one only after the previous one has
settled; each operation's own settled outcome is delivered to its caller
unchanged, a rejection affects only that operation's result, and the queue
promise is never poisoned by a rejected operation. -/
theorem queue_runs_fifo_and_isolates_failures (outcomes : List (POutcome Unit))
    (q0 : POutcome Unit) :
    (runQueue q0 (outcomes.enum.map (fun p => mkOp p.1 p.2)) []).1 = outcomes ∧
    (runQueue q0 (outcomes.enum.map (fun p => mkOp p.1 p.2)) []).2.2 =
      List.range outcomes.length ∧
    (runQueue q0 (outcomes.enum.map (fun p => mkOp p.1 p.2)) []).2.1 =
      (if outcomes.isEmpty then q0 else .ok ()) := by
  have h := runQueue_mkOp outcomes 0 q0 []
  rw [show outcomes.enum = outcomes.enumFrom 0 from rfl] at *
  rw [h]
  simp [List.range_eq_range']

theorem removeFirstById_length (l : List ConnInfo) (cid : Nat)
    (h : l.any (fun c => c.id = cid) = true) :
    (removeFirstById l cid).length = l.length - 1 := by
  induction l with
  | nil => simp at h
  | cons c rest ih =>
    by_cases hc : c.id = cid
    · simp [removeFirstById, hc]
    · have hrest : rest.any (fun c => c.id = cid) = true := by
        simp [hc] at h
        simpa using h
      have hne : rest ≠ [] := by
        intro he; rw [he] at hrest; simp at hrest
      have hlen : 1 ≤ rest.length := by
        cases rest with
        | nil => exact absurd rfl hne
        | cons a t => simp
      simp only [removeFirstById, hc, if_false, List.length_cons, ih hrest]
      omega

/-- C7: the registry count increases by exactly one on each acquire and
decreases by exactly one on a release whose argument matches a registered
connection; release of an unknown connection is a no-op; the registry state
after a release does not depend on whether cleanup fails (the record is
removed before cleanup is attempted); and `closeAllConnections` leaves the
count at zero regardless of individual cleanup failures. -/
theorem registry_count_accounting (r : Registry) (p : String) (ek : Option String)
    (cid : Nat) (f f2 : Bool) (fails : Nat → Bool) :
    Registry.count (acquire r p ek).2.2 = Registry.count r + 1 ∧
    (r.connections.any (fun c => c.id = cid) = true →
      Registry.count (releaseConnection r cid f).1 = Registry.count r - 1) ∧
    (r.connections.any (fun c => c.id = cid) = false →
      (releaseConnection r cid f).1 = r) ∧
    (releaseConnection r cid f).1 = (releaseConnection r cid f2).1 ∧
    Registry.count (closeAllConnections r fails).1 = 0 := by
  refine ⟨?_, ?_, ?_, ?_, rfl⟩
  · simp [acquire, Registry.count]
  · intro h
    simp [releaseConnection, h, Registry.count, removeFirstById_length r.connections cid h]
  · intro h
    simp [releaseConnection, h]
  · unfold releaseConnection
    split <;> rfl

theorem registry_count_accounting_witness :
    (Registry.mk [⟨0, "p", false⟩] 1).connections.any (fun c => c.id = 0) = true ∧
    Registry.count (releaseConnection (Registry.mk [⟨0, "p", false⟩] 1) 0 true).1 =
      Registry.count (Registry.mk [⟨0, "p", false⟩] 1) - 1 :=
  ⟨by decide,
    (registry_count_accounting (Registry.mk [⟨0, "p", false⟩] 1) "p" none 0
      true false (fun _ => false)).2.1 (by decide)⟩

/-- C4: every acquire produces a brand-new registry entry (its connection is
not already registered, even for an identical path and key, so two store
instances never share a connection), acquisition preserves registry
well-formedness, and a store instance binds at most one connection: when one
is bound, the instance-level getConnection returns it without touching the
registry, and when none is bound it binds exactly the one freshly acquired
connection. -/
theorem acquired_connections_are_fresh_and_unshared (r : Registry) (p : String)
    (ek : Option String) (cid : Nat) (hwf : Registry.wf r) :
    ((acquire r p ek).1 ∈ r.connections.map ConnInfo.id → False) ∧
    (acquire r p ek).1 ≠ (acquire (acquire r p ek).2.2 p ek).1 ∧
    Registry.wf (acquire r p ek).2.2 ∧
    storeGetConnection (some cid) r p ek = (cid, some cid, r) ∧
    storeGetConnection none r p ek =
      ((acquire r p ek).1, some (acquire r p ek).1, (acquire r p ek).2.2) := by
  refine ⟨?_, ?_, ?_, rfl, rfl⟩
  · intro h
    simp only [acquire, List.mem_map] at h
    obtain ⟨c, hc, hid⟩ := h
    have := hwf c hc
    omega
  · simp [acquire]
  · intro c hc
    simp only [acquire] at hc ⊢
    rcases List.mem_append.mp hc with hold | hnew
    · exact Nat.lt_succ_of_lt (hwf c hold)
    · simp at hnew
      simp [hnew]

theorem acquired_connections_are_fresh_and_unshared_witness :
    Registry.wf emptyRegistry ∧
    ((acquire emptyRegistry "/tmp/a.duckdb" none).1 ∈
      emptyRegistry.connections.map ConnInfo.id → False) :=
  ⟨fun c hc => absurd hc (by simp [emptyRegistry]),
    (acquired_connections_are_fresh_and_unshared emptyRegistry "/tmp/a.duckdb" none 0
      (fun c hc => absurd hc (by simp [emptyRegistry]))).1⟩

/-- C6 (counterexample): the `ATTACH` statement run while opening an
encrypted connection is built by string concatenation of the database path
and the encryption key, so two acquisitions differing only in the path, or
only in the key, hand different SQL texts to the engine, and the raw key
appears verbatim inside the SQL text. -/
theorem attach_sql_concatenates_path_and_key :
    (acquire emptyRegistry "/tmp/a.duckdb" (some "secret1")).2.1 ≠
      (acquire emptyRegistry "/tmp/b.duckdb" (some "secret1")).2.1 ∧
    (acquire emptyRegistry "/tmp/a.duckdb" (some "secret1")).2.1 ≠
      (acquire emptyRegistry "/tmp/a.duckdb" (some "secret2")).2.1 ∧
    ("secret1".data <:+: (attachCommand "/tmp/a.duckdb" "secret1").data) := by
  exact ⟨by decide, by decide, by decide⟩

/-- C6 (amended): keys, values and namespace patterns are passed through the
parameter-binding mechanism and never concatenated into the store-level SQL
texts — two runs of `set`/`get`/`getMany`/`clear` differing only in those
values (with equal batch sizes) hand identical SQL texts to the engine, with
the values carried in the bound parameters — while the database path and
the encryption key of an encrypted connection are interpolated into the
`ATTACH` statement text. -/
theorem statement_texts_independent_of_bound_parameters (s : Store)
    (k1 k2 : String) (v1 v2 : JValue) (keys1 keys2 : List String)
    (ns1 ns2 : String)
    (hd : s.disposed = false)
    (hv1 : validateKey s k1 = .ok ()) (hv2 : validateKey s k2 = .ok ())
    (hlen : keys1.length = keys2.length) :
    sqlTexts (set s k1 v1).2 = sqlTexts (set s k2 v2).2 ∧
    sqlTexts (get s k1).2 = sqlTexts (get s k2).2 ∧
    sqlTexts (getMany s keys1).2 = sqlTexts (getMany s keys2).2 ∧
    sqlTexts (clear { s with nmspace := some ns1 }).2 =
      sqlTexts (clear { s with nmspace := some ns2 }).2 ∧
    (∃ ref, (set s k1 v1).2.sqlLog.getLast? =
      some ⟨insertSql ref, [("key", k1), ("value", storedText v1)]⟩) := by
  have hb : beginOperation s = .ok { s with pending := s.pending + 1 } := by
    simp [beginOperation, hd]
  have hv1p : validateKey { s with pending := s.pending + 1 } k1 = .ok () := hv1
  have hv2p : validateKey { s with pending := s.pending + 1 } k2 = .ok () := hv2
  refine ⟨?_, ?_, ?_, ?_, ?_⟩
  · unfold set
    simp only [hb, hv1p, hv2p]
    simp [sqlTexts, logStmt, endOperation]
  · unfold get
    simp only [hb, hv1p, hv2p]
    simp [sqlTexts, logStmt, endOperation]
  · cases keys1 with
    | nil =>
      cases keys2 with
      | nil => rfl
      | cons b t2 => simp at hlen
    | cons a t =>
      cases keys2 with
      | nil => simp at hlen
      | cons b t2 =>
        unfold getMany
        simp only [hb]
        simp [sqlTexts, logStmt, endOperation, hlen]
  · have hb1 : beginOperation { s with nmspace := some ns1 } =
        .ok { s with nmspace := some ns1, pending := s.pending + 1 } := by
      simp [beginOperation, hd]
    have hb2 : beginOperation { s with nmspace := some ns2 } =
        .ok { s with nmspace := some ns2, pending := s.pending + 1 } := by
      simp [beginOperation, hd]
    unfold clear
    simp only [hb1, hb2]
    by_cases hcb : s.connectionBound <;> by_cases hsch : s.schemaInitialized <;>
      simp [ensureConnection, hcb, hsch, sqlTexts, logStmt, endOperation, getTableRef]
  · unfold set
    simp only [hb, hv1p]
    simp only [logStmt, endOperation]
    exact ⟨getTableRef (ensureConnection { s with pending := s.pending + 1 }),
      by simp [List.getLast?_concat]⟩

theorem statement_texts_independent_of_bound_parameters_witness :
    sampleStore.disposed = false ∧
    validateKey sampleStore "a" = .ok () ∧
    validateKey sampleStore "b" = .ok () ∧
    sqlTexts (set sampleStore "a" (.jNum 1)).2 =
      sqlTexts (set sampleStore "b" JValue.jNull).2 :=
  ⟨rfl, rfl, rfl,
    (statement_texts_independent_of_bound_parameters sampleStore "a" "b" (.jNum 1)
      JValue.jNull ["x"] ["y"] "n1" "n2" rfl rfl rfl rfl).1⟩

theorem ensureConnection_db (t : Store) : (ensureConnection t).db = t.db := by
  unfold ensureConnection
  by_cases h1 : t.connectionBound <;> by_cases h2 : t.schemaInitialized <;> simp [h1, h2]

theorem ensureConnection_nmspace (t : Store) :
    (ensureConnection t).nmspace = t.nmspace := by
  unfold ensureConnection
  by_cases h1 : t.connectionBound <;> by_cases h2 : t.schemaInitialized <;> simp [h1, h2]

theorem jsMapGet_foldl_of_no_match (k : String) (rows : List (String × String))
    (acc : Option String) (h : ∀ r ∈ rows, (r.1 == k) = false) :
    rows.foldl (fun a r => if r.1 == k then some r.2 else a) acc = acc := by
  induction rows generalizing acc with
  | nil => rfl
  | cons r rest ih =>
    have hr := h r (List.mem_cons_self r rest)
    simp only [List.foldl_cons, hr, if_false]
    exact ih acc (fun x hx => h x (List.mem_cons_of_mem r hx))

theorem jsMapGet_filter_eq_select (keys : List String) (k : String)
    (db : List (String × String)) (hnd : (db.map Prod.fst).Nodup)
    (hk : keys.contains k = true) :
    jsMapGet (db.filter (fun r => keys.contains r.1)) k = sqlSelectByKey db k := by
  induction db with
  | nil => rfl
  | cons r0 db' ih =>
    have hnd' : (db'.map Prod.fst).Nodup := (List.nodup_cons.mp hnd).2
    have hnotin : r0.1 ∉ db'.map Prod.fst := (List.nodup_cons.mp hnd).1
    by_cases h0 : r0.1 == k
    · have heq : r0.1 = k := by simpa using h0
      have hkept : keys.contains r0.1 = true := by rw [heq]; exact hk
      have hnomatch : ∀ r ∈ db'.filter (fun r => keys.contains r.1), (r.1 == k) = false := by
        intro r hr
        have hrmem := List.mem_of_mem_filter hr
        by_contra hbeq
        have : r.1 = k := by
          have := eq_true_of_ne_false hbeq
          simpa using this
        exact hnotin (by rw [heq]; exact this ▸ List.mem_map_of_mem Prod.fst hrmem)
      simp only [List.filter_cons, hkept, if_true, jsMapGet, List.foldl_cons, h0]
      rw [jsMapGet_foldl_of_no_match k _ _ hnomatch]
      simp [sqlSelectByKey, List.filter_cons, h0]
    · have h0f : (r0.1 == k) = false := by simpa using h0
      have hsel : sqlSelectByKey (r0 :: db') k = sqlSelectByKey db' k := by
        simp [sqlSelectByKey, List.filter_cons, h0f]
      rw [hsel]
      by_cases hkeep : keys.contains r0.1
      · simp only [List.filter_cons, hkeep, if_true, jsMapGet, List.foldl_cons, h0f, if_false]
        exact ih hnd'
      · simp only [List.filter_cons, hkeep, if_false]
        exact ih hnd'

/-- C8: `getMany` returns a sequence positionally aligned with the input
key list — the same length, position i holding the stored value for keys[i]
or absent, duplicates included, input order preserved — and for the empty
input list it returns the empty sequence without issuing any query and
without touching the store. -/
theorem getMany_preserves_positions (s : Store) (keys : List String)
    (hd : s.disposed = false) (hnd : (s.db.map Prod.fst).Nodup) :
    getMany s [] = (.ok [], s) ∧
    (getMany s keys).1 = .ok (keys.map (fun k => sqlSelectByKey s.db k)) ∧
    (keys.map (fun k => sqlSelectByKey s.db k)).length = keys.length := by
  have hb : beginOperation s = .ok { s with pending := s.pending + 1 } := by
    simp [beginOperation, hd]
  refine ⟨rfl, ?_, by simp⟩
  cases keys with
  | nil => rfl
  | cons a t =>
    have hne : ¬((a :: t).length = 0) := by simp
    unfold getMany
    rw [if_neg hne]
    simp only [hb, logStmt, endOperation]
    have hdb : (ensureConnection { s with pending := s.pending + 1 }).db = s.db :=
      ensureConnection_db _
    simp only [hdb]
    congr 1
    apply List.map_congr_left
    intro k hk
    exact jsMapGet_filter_eq_select (a :: t) k s.db hnd (by simpa using hk)

theorem getMany_preserves_positions_witness :
    sampleStore.disposed = false ∧
    (sampleStore.db.map Prod.fst).Nodup ∧
    (getMany sampleStore ["ns:b", "zz", "ns:b"]).1 =
      .ok (["ns:b", "zz", "ns:b"].map (fun k => sqlSelectByKey sampleStore.db k)) :=
  ⟨rfl, by decide,
    (getMany_preserves_positions sampleStore ["ns:b", "zz", "ns:b"] rfl (by decide)).2.1⟩

theorem likeMatch_pct_all (s : List Char) : likeMatch ['%'] s = true := by
  cases s with
  | nil => rfl
  | cons c s2 =>
    unfold likeMatch
    rw [if_pos rfl, List.any_eq_true]
    exact ⟨[], by simp, rfl⟩

theorem likeMatch_clean_pct (p : List Char) (hp : ∀ c ∈ p, c ≠ '%' ∧ c ≠ '_') :
    ∀ s, likeMatch (p ++ ['%']) s = p.isPrefixOf s := by
  induction p with
  | nil => intro s; simpa using likeMatch_pct_all s
  | cons c p' ih =>
    intro s
    have hc := hp c (List.mem_cons_self c p')
    cases s with
    | nil =>
      simp only [List.cons_append]
      unfold likeMatch
      simp [hc.1]
    | cons a s2 =>
      simp only [List.cons_append]
      unfold likeMatch
      have ih2 := ih (fun x hx => hp x (List.mem_cons_of_mem c hx)) s2
      simp only [hc.1, if_false, ih2, List.isPrefixOf]
      by_cases hca : c = a <;> simp [hca, hc.2]

/-- C9 (counterexample): with the namespace "x%" (containing the LIKE
wildcard), `clear()` deletes the row with key "xa:1" even though that key
does not start with the string "x%:" — the LIKE pattern matches more rows
than the literal-prefix reading of the claim allows. -/
theorem clear_with_wildcard_namespace_overdeletes :
    (clear wildcardNsStore).1 = .ok () ∧
    (clear wildcardNsStore).2.db = [] ∧
    ("x%:".data.isPrefixOf "xa:1".data) = false ∧
    (wildcardNsStore.db.map Prod.fst).contains "xa:1" = true :=
  ⟨rfl, by decide, by decide, by decide⟩

/-- C9 (amended): when the namespace contains no LIKE wildcard characters
(`%` or `_`), `clear()` deletes exactly the rows whose key starts with the
string `"<namespace>:"` and leaves every other row unchanged (in general it
deletes exactly the rows matching the LIKE pattern `"<namespace>:%"`), and
with no namespace set `clear()` deletes every row. -/
theorem clear_deletes_exactly_namespace_rows (s : Store) (ns : String)
    (hd : s.disposed = false) (hns : s.nmspace = some ns)
    (hclean : ∀ c ∈ ns.data, c ≠ '%' ∧ c ≠ '_') :
    (clear s).1 = .ok () ∧
    (clear s).2.db =
      s.db.filter (fun r => !((ns.data ++ [':']).isPrefixOf r.1.data)) ∧
    (∀ t : Store, t.disposed = false → t.nmspace = none → (clear t).2.db = []) := by
  have hb : beginOperation s = .ok { s with pending := s.pending + 1 } := by
    simp [beginOperation, hd]
  have hnsp : (ensureConnection { s with pending := s.pending + 1 }).nmspace = some ns := by
    rw [ensureConnection_nmspace]; exact hns
  have hdb : (ensureConnection { s with pending := s.pending + 1 }).db = s.db :=
    ensureConnection_db _
  have hlike : ∀ key : String,
      likeMatch (ns ++ ":%").data key.data = (ns.data ++ [':']).isPrefixOf key.data := by
    intro key
    have hclean2 : ∀ c ∈ ns.data ++ [':'], c ≠ '%' ∧ c ≠ '_' := by
      intro c hcm
      rcases List.mem_append.mp hcm with h | h
      · exact hclean c h
      · simp at h
        simp [h]
    have hps : (ns ++ ":%").data = (ns.data ++ [':']) ++ ['%'] := by
      simp
    rw [hps, likeMatch_clean_pct (ns.data ++ [':']) hclean2 key.data]
  constructor
  · unfold clear
    simp only [hb, hnsp]
  constructor
  · unfold clear
    simp only [hb, hnsp, logStmt, endOperation]
    simp only [hdb]
    apply List.filter_congr
    intro r _
    rw [hlike r.1]
  · intro t htd htn
    have hbt : beginOperation t = .ok { t with pending := t.pending + 1 } := by
      simp [beginOperation, htd]
    have hnst : (ensureConnection { t with pending := t.pending + 1 }).nmspace = none := by
      rw [ensureConnection_nmspace]; exact htn
    unfold clear
    simp only [hbt, hnst, logStmt, endOperation]

theorem clear_deletes_exactly_namespace_rows_witness :
    sampleStore.disposed = false ∧
    sampleStore.nmspace = some "ns" ∧
    (∀ c ∈ "ns".data, c ≠ '%' ∧ c ≠ '_') ∧
    (clear sampleStore).2.db =
      sampleStore.db.filter (fun r => !(("ns".data ++ [':']).isPrefixOf r.1.data)) :=
  ⟨rfl, rfl, by decide,
    (clear_deletes_exactly_namespace_rows sampleStore "ns" rfl rfl (by decide)).2.1⟩

theorem charToNat_ofNat (n : Nat) (h : n < 55296) : (Char.ofNat n).toNat = n := by
  have hv : n.isValidChar := Or.inl h
  simp only [Char.ofNat, hv, dif_pos]
  rfl

theorem charOfNat_toNat (c : Char) : Char.ofNat c.toNat = c := by
  apply Char.ext
  have hv : c.toNat.isValidChar := c.valid
  simp only [Char.ofNat, hv, dif_pos]
  apply UInt32.ext
  rfl

theorem hexVal_hexDigitChar (n : Nat) (h : n < 16) :
    hexVal (hexDigitChar n) = some n := by
  interval_cases n <;> decide

theorem parseStringBody_escape (cs : List Char) (rest : List Char) :
    parseStringBody (escapeList cs ++ '"' :: rest) = some (cs, rest) := by
  induction cs with
  | nil =>
    show parseStringBody ([] ++ '"' :: rest) = some ([], rest)
    rw [List.nil_append, parseStringBody.eq_def]
    simp
  | cons c cs2 ih =>
    have hsplit : escapeList (c :: cs2) ++ '"' :: rest =
        escapeChar c ++ (escapeList cs2 ++ '"' :: rest) := by
      simp [escapeList, List.append_assoc]
    rw [hsplit]
    revert ih
    generalize escapeList cs2 ++ '"' :: rest = tail
    intro ih
    by_cases h1 : c = '"'
    · subst h1
      rw [show escapeChar '"' = ['\\', '"'] from rfl, parseStringBody.eq_def]
      simp [ih]
    · by_cases h2 : c = '\\'
      · subst h2
        rw [show escapeChar '\\' = ['\\', '\\'] from rfl, parseStringBody.eq_def]
        simp [ih]
      · by_cases h3 : c = '\n'
        · subst h3
          rw [show escapeChar '\n' = ['\\', 'n'] from rfl, parseStringBody.eq_def]
          simp [ih]
        · by_cases h4 : c = '\t'
          · subst h4
            rw [show escapeChar '\t' = ['\\', 't'] from rfl, parseStringBody.eq_def]
            simp [ih]
          · by_cases h5 : c = '\r'
            · subst h5
              rw [show escapeChar '\r' = ['\\', 'r'] from rfl, parseStringBody.eq_def]
              simp [ih]
            · by_cases h6 : c = Char.ofNat 8
              · subst h6
                rw [show escapeChar (Char.ofNat 8) = ['\\', 'b'] from rfl,
                  parseStringBody.eq_def]
                simp [ih]
              · by_cases h7 : c = Char.ofNat 12
                · subst h7
                  rw [show escapeChar (Char.ofNat 12) = ['\\', 'f'] from rfl,
                    parseStringBody.eq_def]
                  simp [ih]
                · by_cases h8 : c.toNat < 32
                  · have hdiv : c.toNat / 16 < 16 := by omega
                    have hmod : c.toNat % 16 < 16 := by omega
                    have hdec : decodeHex4 '0' '0' (hexDigitChar (c.toNat / 16))
                        (hexDigitChar (c.toNat % 16)) = some c.toNat := by
                      simp [decodeHex4, hexVal_hexDigitChar _ hdiv,
                        hexVal_hexDigitChar _ hmod, show hexVal '0' = some 0 from rfl]
                      omega
                    rw [show escapeChar c = ['\\', 'u', '0', '0',
                        hexDigitChar (c.toNat / 16), hexDigitChar (c.toNat % 16)] from by
                      simp [escapeChar, h1, h2, h3, h4, h5, h6, h7, h8]]
                    rw [parseStringBody.eq_def]
                    simp [ih, hdec, charOfNat_toNat]
                  · rw [show escapeChar c = [c] from by
                      simp [escapeChar, h1, h2, h3, h4, h5, h6, h7, h8]]
                    rw [show ([c] ++ tail) = c :: tail from rfl, parseStringBody.eq_def]
                    simp [ih, h1, h2]

theorem natDigits_cons (n : Nat) : ∃ c t, natDigits n = c :: t ∧ isDig c = true := by
  induction n using Nat.strong_induction_on with
  | _ n ih =>
    rw [natDigits]
    by_cases h : n < 10
    · refine ⟨Char.ofNat (48 + n), [], by simp [h], ?_⟩
      simp only [isDig, charToNat_ofNat (48 + n) (by omega)]
      simp
      omega
    · obtain ⟨c, t, hct, hd⟩ := ih (n / 10) (Nat.div_lt_self (by omega) (by omega))
      refine ⟨c, t ++ [Char.ofNat (48 + n % 10)], ?_, hd⟩
      simp [h, hct]

theorem natDigits_all_dig (n : Nat) : ∀ c ∈ natDigits n, isDig c = true := by
  induction n using Nat.strong_induction_on with
  | _ n ih =>
    rw [natDigits]
    by_cases h : n < 10
    · simp only [h, if_true, List.mem_singleton]
      intro c hc
      subst hc
      simp only [isDig, charToNat_ofNat (48 + n) (by omega)]
      simp
      omega
    · simp only [h, if_false, List.mem_append, List.mem_singleton]
      rintro c (hc | hc)
      · exact ih (n / 10) (Nat.div_lt_self (by omega) (by omega)) c hc
      · subst hc
        simp only [isDig, charToNat_ofNat (48 + n % 10) (by omega)]
        simp
        omega

theorem takeWhile_append_all {p : Char → Bool} (l rest : List Char)
    (hall : ∀ c ∈ l, p c = true) (hrest : ∀ c, rest.head? = some c → p c = false) :
    (l ++ rest).takeWhile p = l ∧ (l ++ rest).dropWhile p = rest := by
  induction l with
  | nil =>
    simp only [List.nil_append]
    cases rest with
    | nil => simp
    | cons r t =>
      have hr := hrest r rfl
      simp [List.takeWhile_cons, List.dropWhile_cons, hr]
  | cons a l2 ih =>
    have ha := hall a (List.mem_cons_self a l2)
    have ih2 := ih (fun c hc => hall c (List.mem_cons_of_mem a hc))
    simp [List.takeWhile_cons, List.dropWhile_cons, ha, ih2.1, ih2.2]

theorem natFromDigitsAux_append (l1 l2 : List Char) : ∀ acc,
    natFromDigitsAux acc (l1 ++ l2) = natFromDigitsAux (natFromDigitsAux acc l1) l2 := by
  induction l1 with
  | nil => intro acc; rfl
  | cons c t ih =>
    intro acc
    rw [List.cons_append]
    exact ih (acc * 10 + (c.toNat - 48))

theorem natFromDigitsAux_natDigits (n : Nat) : ∀ acc,
    natFromDigitsAux acc (natDigits n) = acc * 10 ^ (natDigits n).length + n := by
  induction n using Nat.strong_induction_on with
  | _ n ih =>
    intro acc
    rw [natDigits]
    by_cases h : n < 10
    · rw [if_pos h]
      rw [show natFromDigitsAux acc [Char.ofNat (48 + n)] =
        acc * 10 + ((Char.ofNat (48 + n)).toNat - 48) from rfl]
      rw [charToNat_ofNat (48 + n) (by omega)]
      simp
    · have hlt : n / 10 < n := Nat.div_lt_self (by omega) (by omega)
      rw [if_neg h, natFromDigitsAux_append, ih (n / 10) hlt]
      rw [show natFromDigitsAux (acc * 10 ^ (natDigits (n / 10)).length + n / 10)
          [Char.ofNat (48 + n % 10)] =
        (acc * 10 ^ (natDigits (n / 10)).length + n / 10) * 10 +
          ((Char.ofNat (48 + n % 10)).toNat - 48) from rfl]
      rw [charToNat_ofNat (48 + n % 10) (by omega)]
      rw [List.length_append, List.length_singleton, pow_succ]
      have e1 : (acc * 10 ^ (natDigits (n / 10)).length + n / 10) * 10 =
          acc * (10 ^ (natDigits (n / 10)).length * 10) + n / 10 * 10 := by ring
      omega

theorem parseNumberChars_intChars (n : Int) (rest : List Char)
    (hrest : digitFree rest) :
    parseNumberChars (intChars n ++ rest) = some (n, rest) := by
  have hdash : isDig '-' = false := by decide
  by_cases hn : n < 0
  · rw [intChars, if_pos hn]
    obtain ⟨c, t, hct, hcd⟩ := natDigits_cons n.natAbs
    have htk := takeWhile_append_all (p := isDig) (natDigits n.natAbs) rest
      (natDigits_all_dig n.natAbs) hrest
    have hne : (natDigits n.natAbs).length ≠ 0 := by
      rw [hct]; simp
    rw [List.cons_append, parseNumberChars, if_pos rfl]
    simp only [htk.1, htk.2, if_neg hne]
    have habs : (n.natAbs : Int) = -n := by omega
    rw [natFromDigitsAux_natDigits n.natAbs 0]
    simp only [Nat.zero_mul, Nat.zero_add]
    congr 1
    congr 1
    omega
  · rw [intChars, if_neg hn]
    obtain ⟨c, t, hct, hcd⟩ := natDigits_cons n.natAbs
    have htk := takeWhile_append_all (p := isDig) (natDigits n.natAbs) rest
      (natDigits_all_dig n.natAbs) hrest
    have hne : (natDigits n.natAbs).length ≠ 0 := by
      rw [hct]; simp
    have hcnd : c ≠ '-' := by
      intro he; rw [he] at hcd; rw [hdash] at hcd; exact Bool.false_ne_true hcd
    rw [hct, List.cons_append, parseNumberChars, if_neg hcnd]
    rw [← List.cons_append, ← hct]
    simp only [htk.1, htk.2, if_neg hne]
    rw [natFromDigitsAux_natDigits n.natAbs 0]
    simp only [Nat.zero_mul, Nat.zero_add]
    congr 1
    congr 1
    omega

theorem intChars_head (n : Int) :
    ∃ c t, intChars n = c :: t ∧ (c = '-' ∨ isDig c = true) := by
  by_cases hn : n < 0
  · exact ⟨'-', natDigits n.natAbs, by rw [intChars, if_pos hn], Or.inl rfl⟩
  · obtain ⟨c, t, hct, hd⟩ := natDigits_cons n.natAbs
    exact ⟨c, t, by rw [intChars, if_neg hn, hct], Or.inr hd⟩

theorem numHead_ne (c : Char) (h : c = '-' ∨ isDig c = true) :
    c ≠ 'n' ∧ c ≠ 't' ∧ c ≠ 'f' ∧ c ≠ '"' ∧ c ≠ '[' ∧ c ≠ lbraceChar ∧ c ≠ ']' := by
  rcases h with h | h
  · subst h
    refine ⟨by decide, by decide, by decide, by decide, by decide, by decide, by decide⟩
  · refine ⟨?_, ?_, ?_, ?_, ?_, ?_, ?_⟩ <;>
      (intro he; subst he; exact absurd h (by decide))

theorem stringify_head_ne_rbrack (v : JValue) :
    ∃ c t, stringifyChars v = c :: t ∧ c ≠ ']' := by
  cases v with
  | jNull => exact ⟨'n', ['u', 'l', 'l'], rfl, by decide⟩
  | jBool b =>
    cases b with
    | true => exact ⟨'t', ['r', 'u', 'e'], rfl, by decide⟩
    | false => exact ⟨'f', ['a', 'l', 's', 'e'], rfl, by decide⟩
  | jNum n =>
    obtain ⟨c, t, hct, hd⟩ := intChars_head n
    exact ⟨c, t, by rw [show stringifyChars (.jNum n) = intChars n from rfl, hct],
      (numHead_ne c hd).2.2.2.2.2.2⟩
  | jStr s => exact ⟨'"', escapeList s.data ++ ['"'], rfl, by decide⟩
  | jArr xs => exact ⟨'[', stringifyElems xs ++ [']'], rfl, by decide⟩
  | jObj kvs => exact ⟨lbraceChar, stringifyMembers kvs ++ [rbraceChar], rfl, by decide⟩

theorem cost_pos (v : JValue) : 1 ≤ cost v := by
  cases v <;> simp [cost]

theorem stringify_length_ge :
    ∀ (N : Nat) (v : JValue), sizeOf v ≤ N → cost v ≤ (stringifyChars v).length := by
  intro N
  induction N with
  | zero =>
    intro v h
    exfalso
    cases v <;> simp at h
  | succ N ih =>
    intro v h
    have helems : ∀ xs : List JValue, (∀ x ∈ xs, sizeOf x ≤ N) →
        costElems xs ≤ (stringifyElems xs).length + 1 := by
      intro xs
      induction xs with
      | nil => intro _; simp [costElems, stringifyElems]
      | cons x rest ihl =>
        intro hall
        have hx := ih x (hall x (List.mem_cons_self x rest))
        cases rest with
        | nil =>
          rw [show costElems [x] = 1 + cost x + costElems [] from rfl]
          rw [show stringifyElems [x] = stringifyChars x from by rw [stringifyElems]]
          simp [costElems]
          omega
        | cons y rest2 =>
          have hr := ihl (fun z hz => hall z (List.mem_cons_of_mem x hz))
          rw [show costElems (x :: y :: rest2) =
            1 + cost x + costElems (y :: rest2) from rfl]
          rw [show stringifyElems (x :: y :: rest2) =
            stringifyChars x ++ ',' :: stringifyElems (y :: rest2) from by
              rw [stringifyElems]]
          simp only [List.length_append, List.length_cons]
          omega
    have hmembers : ∀ kvs : List (String × JValue), (∀ kv ∈ kvs, sizeOf kv.2 ≤ N) →
        costMembers kvs ≤ (stringifyMembers kvs).length + 1 := by
      intro kvs
      induction kvs with
      | nil => intro _; simp [costMembers, stringifyMembers]
      | cons kv rest ihl =>
        intro hall
        have hx := ih kv.2 (hall kv (List.mem_cons_self kv rest))
        cases rest with
        | nil =>
          rw [show costMembers [kv] = 1 + cost kv.2 + costMembers [] from by
            rw [show kv = (kv.1, kv.2) from rfl]
            rw [costMembers]
            rfl]
          rw [show stringifyMembers [kv] =
            quoteChars kv.1.data ++ ':' :: stringifyChars kv.2 from by
              rw [show kv = (kv.1, kv.2) from rfl]
              rw [stringifyMembers]]
          simp only [List.length_append, List.length_cons, costMembers]
          omega
        | cons kv2 rest2 =>
          have hr := ihl (fun z hz => hall z (List.mem_cons_of_mem kv hz))
          rw [show costMembers (kv :: kv2 :: rest2) =
            1 + cost kv.2 + costMembers (kv2 :: rest2) from by
              rw [show kv = (kv.1, kv.2) from rfl]
              rw [costMembers]]
          rw [show stringifyMembers (kv :: kv2 :: rest2) =
            quoteChars kv.1.data ++ ':' ::
              (stringifyChars kv.2 ++ ',' :: stringifyMembers (kv2 :: rest2)) from by
              rw [show kv = (kv.1, kv.2) from rfl]
              rw [stringifyMembers]
              simp [List.append_assoc]]
          simp only [List.length_append, List.length_cons]
          omega
    cases v with
    | jNull =>
      simp [cost, show stringifyChars .jNull = ['n', 'u', 'l', 'l'] from rfl]
    | jBool b =>
      cases b with
      | true =>
        simp [cost, show stringifyChars (.jBool true) = ['t', 'r', 'u', 'e'] from rfl]
      | false =>
        simp [cost,
          show stringifyChars (.jBool false) = ['f', 'a', 'l', 's', 'e'] from rfl]
    | jNum n =>
      obtain ⟨c, t, hct, _⟩ := intChars_head n
      rw [show stringifyChars (.jNum n) = intChars n from rfl, hct]
      simp [cost]
    | jStr s =>
      rw [show stringifyChars (.jStr s) = quoteChars s.data from rfl]
      simp [cost, quoteChars]
    | jArr xs =>
      have hsz : ∀ x ∈ xs, sizeOf x ≤ N := by
        intro x hx
        have h1 : sizeOf x < sizeOf xs := List.sizeOf_lt_of_mem hx
        have h2 : sizeOf (JValue.jArr xs) = 1 + sizeOf xs := by simp
        omega
      have he := helems xs hsz
      rw [show stringifyChars (.jArr xs) = '[' :: stringifyElems xs ++ [']'] from rfl]
      rw [show cost (.jArr xs) = 1 + costElems xs from rfl]
      simp only [List.cons_append, List.length_cons, List.length_append,
        List.length_singleton]
      omega
    | jObj kvs =>
      have hsz : ∀ kv ∈ kvs, sizeOf kv.2 ≤ N := by
        intro kv hkv
        have h1 : sizeOf kv < sizeOf kvs := List.sizeOf_lt_of_mem hkv
        have h2 : sizeOf (JValue.jObj kvs) = 1 + sizeOf kvs := by simp
        have h3 : sizeOf kv.2 ≤ sizeOf kv := by
          obtain ⟨a, b⟩ := kv
          simp
        omega
      have he := hmembers kvs hsz
      rw [show stringifyChars (.jObj kvs) =
        lbraceChar :: stringifyMembers kvs ++ [rbraceChar] from rfl]
      rw [show cost (.jObj kvs) = 1 + costMembers kvs from rfl]
      simp only [List.cons_append, List.length_cons, List.length_append,
        List.length_singleton]
      omega

theorem digitFree_cons (c : Char) (h : isDig c = false) (rest : List Char) :
    digitFree (c :: rest) := by
  intro d hd
  have hcd : c = d := by simpa using hd
  rw [← hcd]
  exact h

theorem parseValue_jArr_cons (fuel : Nat) (c0 : Char) (S : List Char) (h : ¬c0 = ']') :
    parseValue (Nat.succ fuel) ('[' :: c0 :: S) =
      (parseElems fuel (c0 :: S)).map (fun p => (JValue.jArr p.1, p.2)) := by
  rw [parseValue.eq_def]
  simp [h]

theorem parseValue_jObj_cons (fuel : Nat) (S : List Char) :
    parseValue (Nat.succ fuel) (lbraceChar :: '"' :: S) =
      (parseMembers fuel ('"' :: S)).map (fun p => (JValue.jObj p.1, p.2)) := by
  rw [parseValue.eq_def]
  simp [show (lbraceChar = 'n') = False from by simp [lbraceChar],
    show (lbraceChar = 't') = False from by simp [lbraceChar],
    show (lbraceChar = 'f') = False from by simp [lbraceChar],
    show (lbraceChar = '"') = False from by simp [lbraceChar],
    show (lbraceChar = '[') = False from by simp [lbraceChar],
    show ('"' = rbraceChar) = False from by simp [rbraceChar]]

theorem parseValue_number (fuel : Nat) (c : Char) (T : List Char)
    (h1 : ¬c = 'n') (h2 : ¬c = 't') (h3 : ¬c = 'f') (h4 : ¬c = '"') (h5 : ¬c = '[')
    (h6 : ¬c = lbraceChar) :
    parseValue (Nat.succ fuel) (c :: T) =
      (parseNumberChars (c :: T)).map (fun p => (JValue.jNum p.1, p.2)) := by
  rw [parseValue.eq_def]
  simp [h1, h2, h3, h4, h5, h6]

theorem parseElems_succ (fuel : Nat) (S : List Char) :
    parseElems (Nat.succ fuel) S =
      (parseValue fuel S).bind fun p =>
        match p.2 with
        | c :: r2 =>
          if c = ',' then (parseElems fuel r2).map (fun q => (p.1 :: q.1, q.2))
          else if c = ']' then some ([p.1], r2)
          else none
        | [] => none := rfl

theorem parseMembers_succ (fuel : Nat) (S : List Char) :
    parseMembers (Nat.succ fuel) ('"' :: S) =
      (parseStringBody S).bind fun kp =>
        match kp.2 with
        | ':' :: r2 =>
          (parseValue fuel r2).bind fun vp =>
            match vp.2 with
            | c :: r4 =>
              if c = ',' then
                (parseMembers fuel r4).map
                  (fun q => ((String.mk kp.1, vp.1) :: q.1, q.2))
              else if c = rbraceChar then some ([(String.mk kp.1, vp.1)], r4)
              else none
            | [] => none
        | _ => none := rfl

theorem parse_stringify_aux (fuel : Nat) :
    (∀ (v : JValue) (rest : List Char), cost v ≤ fuel → digitFree rest →
      parseValue fuel (stringifyChars v ++ rest) = some (v, rest)) ∧
    (∀ (xs : List JValue) (rest : List Char), xs ≠ [] → costElems xs ≤ fuel →
      parseElems fuel (stringifyElems xs ++ ']' :: rest) = some (xs, rest)) ∧
    (∀ (kvs : List (String × JValue)) (rest : List Char), kvs ≠ [] →
      costMembers kvs ≤ fuel →
      parseMembers fuel (stringifyMembers kvs ++ rbraceChar :: rest) =
        some (kvs, rest)) := by
  induction fuel with
  | zero =>
    refine ⟨?_, ?_, ?_⟩
    · intro v rest hc _
      exact absurd hc (by have := cost_pos v; omega)
    · intro xs rest hne hc
      cases xs with
      | nil => exact absurd rfl hne
      | cons x t =>
        have := cost_pos x
        rw [show costElems (x :: t) = 1 + cost x + costElems t from rfl] at hc
        omega
    · intro kvs rest hne hc
      cases kvs with
      | nil => exact absurd rfl hne
      | cons kv t =>
        have := cost_pos kv.2
        rw [show costMembers (kv :: t) = 1 + cost kv.2 + costMembers t from by
          rw [show kv = (kv.1, kv.2) from rfl, costMembers]] at hc
        omega
  | succ fuel ih =>
    obtain ⟨ihV, ihE, ihM⟩ := ih
    refine ⟨?_, ?_, ?_⟩
    · intro v rest hc hrest
      cases v with
      | jNull => rfl
      | jBool b => cases b <;> rfl
      | jStr s =>
        have hq : stringifyChars (.jStr s) ++ rest =
            '"' :: (escapeList s.data ++ '"' :: rest) := by
          rw [show stringifyChars (.jStr s) = quoteChars s.data from rfl]
          simp [quoteChars]
        rw [hq]
        rw [show parseValue (Nat.succ fuel) ('"' :: (escapeList s.data ++ '"' :: rest)) =
          (parseStringBody (escapeList s.data ++ '"' :: rest)).map
            (fun p => (JValue.jStr (String.mk p.1), p.2)) from rfl]
        rw [parseStringBody_escape]
        rfl
      | jNum n =>
        obtain ⟨c, t, hct, hd⟩ := intChars_head n
        have hne := numHead_ne c hd
        rw [show stringifyChars (.jNum n) = intChars n from rfl, hct, List.cons_append]
        rw [parseValue_number fuel c (t ++ rest) hne.1 hne.2.1 hne.2.2.1 hne.2.2.2.1
          hne.2.2.2.2.1 hne.2.2.2.2.2.1]
        rw [← List.cons_append, ← hct, parseNumberChars_intChars n rest hrest]
        rfl
      | jArr xs =>
        cases xs with
        | nil => rfl
        | cons x xs2 =>
          obtain ⟨c0, t0, hx0, hc0⟩ := stringify_head_ne_rbrack x
          have hS : ∃ S, stringifyElems (x :: xs2) = c0 :: S := by
            cases xs2 with
            | nil =>
              exact ⟨t0, by
                rw [show stringifyElems [x] = stringifyChars x from by
                  rw [stringifyElems], hx0]⟩
            | cons y ys =>
              refine ⟨t0 ++ ',' :: stringifyElems (y :: ys), ?_⟩
              rw [show stringifyElems (x :: y :: ys) =
                stringifyChars x ++ ',' :: stringifyElems (y :: ys) from by
                rw [stringifyElems], hx0]
              simp
          obtain ⟨S, hS⟩ := hS
          have hcost : costElems (x :: xs2) ≤ fuel := by
            rw [show cost (.jArr (x :: xs2)) = 1 + costElems (x :: xs2) from rfl] at hc
            omega
          have hE := ihE (x :: xs2) rest (by simp) hcost
          rw [show stringifyChars (.jArr (x :: xs2)) ++ rest =
            '[' :: (stringifyElems (x :: xs2) ++ ']' :: rest) from by
            rw [show stringifyChars (.jArr (x :: xs2)) =
              '[' :: stringifyElems (x :: xs2) ++ [']'] from rfl]
            simp]
          rw [hS, List.cons_append]
          rw [parseValue_jArr_cons fuel c0 (S ++ ']' :: rest) hc0]
          rw [← List.cons_append, ← hS, hE]
          rfl
      | jObj kvs =>
        cases kvs with
        | nil => rfl
        | cons kv kvs2 =>
          obtain ⟨k, v⟩ := kv
          have hS : ∃ S, stringifyMembers ((k, v) :: kvs2) = '"' :: S := by
            cases kvs2 with
            | nil =>
              refine ⟨(escapeList k.data ++ ['"']) ++ ':' :: stringifyChars v, ?_⟩
              rw [show stringifyMembers [(k, v)] =
                quoteChars k.data ++ ':' :: stringifyChars v from by
                rw [stringifyMembers]]
              simp [quoteChars]
            | cons kv2 kvs3 =>
              refine ⟨(escapeList k.data ++ ['"']) ++ ':' :: stringifyChars v ++
                ',' :: stringifyMembers (kv2 :: kvs3), ?_⟩
              rw [show stringifyMembers ((k, v) :: kv2 :: kvs3) =
                quoteChars k.data ++ ':' :: stringifyChars v ++
                  ',' :: stringifyMembers (kv2 :: kvs3) from by
                rw [stringifyMembers]]
              simp [quoteChars, List.append_assoc]
          obtain ⟨S, hS⟩ := hS
          have hcost : costMembers ((k, v) :: kvs2) ≤ fuel := by
            rw [show cost (.jObj ((k, v) :: kvs2)) =
              1 + costMembers ((k, v) :: kvs2) from rfl] at hc
            omega
          have hM := ihM ((k, v) :: kvs2) rest (by simp) hcost
          rw [show stringifyChars (.jObj ((k, v) :: kvs2)) ++ rest =
            lbraceChar :: (stringifyMembers ((k, v) :: kvs2) ++ rbraceChar :: rest) from by
            rw [show stringifyChars (.jObj ((k, v) :: kvs2)) =
              lbraceChar :: stringifyMembers ((k, v) :: kvs2) ++ [rbraceChar] from rfl]
            simp]
          rw [hS, List.cons_append]
          rw [parseValue_jObj_cons fuel (S ++ rbraceChar :: rest)]
          rw [← List.cons_append, ← hS, hM]
          rfl
    · intro xs rest hne hc
      cases xs with
      | nil => exact absurd rfl hne
      | cons x xs2 =>
        cases xs2 with
        | nil =>
          have hcx : cost x ≤ fuel := by
            rw [show costElems [x] = 1 + cost x + costElems [] from rfl] at hc
            omega
          have hV := ihV x (']' :: rest) hcx (digitFree_cons ']' (by decide) rest)
          rw [show stringifyElems [x] = stringifyChars x from by rw [stringifyElems]]
          rw [parseElems_succ, hV]
          rfl
        | cons y ys =>
          have hcx : cost x ≤ fuel ∧ costElems (y :: ys) ≤ fuel := by
            rw [show costElems (x :: y :: ys) =
              1 + cost x + costElems (y :: ys) from rfl] at hc
            omega
          have hV := ihV x (',' :: (stringifyElems (y :: ys) ++ ']' :: rest)) hcx.1
            (digitFree_cons ',' (by decide) _)
          have hE := ihE (y :: ys) rest (by simp) hcx.2
          rw [show stringifyElems (x :: y :: ys) =
            stringifyChars x ++ ',' :: stringifyElems (y :: ys) from by
            rw [stringifyElems]]
          rw [show (stringifyChars x ++ ',' :: stringifyElems (y :: ys)) ++ ']' :: rest =
            stringifyChars x ++ ',' :: (stringifyElems (y :: ys) ++ ']' :: rest) from by
            simp]
          rw [parseElems_succ, hV]
          show (parseElems fuel (stringifyElems (y :: ys) ++ ']' :: rest)).map
            (fun q => (x :: q.1, q.2)) = some (x :: y :: ys, rest)
          rw [hE]
          rfl
    · intro kvs rest hne hc
      cases kvs with
      | nil => exact absurd rfl hne
      | cons kv kvs2 =>
        obtain ⟨k, v⟩ := kv
        cases kvs2 with
        | nil =>
          have hcv : cost v ≤ fuel := by
            rw [show costMembers [(k, v)] = 1 + cost v + costMembers [] from by
              simp [costMembers]] at hc
            omega
          have hV := ihV v (rbraceChar :: rest) hcv
            (digitFree_cons rbraceChar (by decide) rest)
          rw [show stringifyMembers [(k, v)] =
            quoteChars k.data ++ ':' :: stringifyChars v from by rw [stringifyMembers]]
          rw [show (quoteChars k.data ++ ':' :: stringifyChars v) ++ rbraceChar :: rest =
            '"' :: (escapeList k.data ++
              '"' :: (':' :: (stringifyChars v ++ rbraceChar :: rest))) from by
            simp [quoteChars]]
          rw [parseMembers_succ, parseStringBody_escape]
          show (parseValue fuel (stringifyChars v ++ rbraceChar :: rest)).bind
            (fun vp =>
              match vp.2 with
              | c :: r4 =>
                if c = ',' then
                  (parseMembers fuel r4).map
                    (fun q => ((String.mk k.data, vp.1) :: q.1, q.2))
                else if c = rbraceChar then some ([(String.mk k.data, vp.1)], r4)
                else none
              | [] => none) = some ([(k, v)], rest)
          rw [hV]
          rfl
        | cons kv2 kvs3 =>
          have hcv : cost v ≤ fuel ∧ costMembers (kv2 :: kvs3) ≤ fuel := by
            rw [show costMembers ((k, v) :: kv2 :: kvs3) =
              1 + cost v + costMembers (kv2 :: kvs3) from by simp [costMembers]] at hc
            omega
          have hV := ihV v (',' :: (stringifyMembers (kv2 :: kvs3) ++ rbraceChar :: rest))
            hcv.1 (digitFree_cons ',' (by decide) _)
          have hM := ihM (kv2 :: kvs3) rest (by simp) hcv.2
          rw [show stringifyMembers ((k, v) :: kv2 :: kvs3) =
            quoteChars k.data ++ ':' :: stringifyChars v ++
              ',' :: stringifyMembers (kv2 :: kvs3) from by rw [stringifyMembers]]
          rw [show (quoteChars k.data ++ ':' :: stringifyChars v ++
              ',' :: stringifyMembers (kv2 :: kvs3)) ++ rbraceChar :: rest =
            '"' :: (escapeList k.data ++ '"' :: (':' :: (stringifyChars v ++
              ',' :: (stringifyMembers (kv2 :: kvs3) ++ rbraceChar :: rest)))) from by
            simp [quoteChars]]
          rw [parseMembers_succ, parseStringBody_escape]
          show (parseValue fuel (stringifyChars v ++
              ',' :: (stringifyMembers (kv2 :: kvs3) ++ rbraceChar :: rest))).bind
            (fun vp =>
              match vp.2 with
              | c :: r4 =>
                if c = ',' then
                  (parseMembers fuel r4).map
                    (fun q => ((String.mk k.data, vp.1) :: q.1, q.2))
                else if c = rbraceChar then some ([(String.mk k.data, vp.1)], r4)
                else none
              | [] => none) = some ((k, v) :: kv2 :: kvs3, rest)
          rw [hV]
          show (parseMembers fuel (stringifyMembers (kv2 :: kvs3) ++ rbraceChar :: rest)).map
            (fun q => ((String.mk k.data, v) :: q.1, q.2)) =
            some ((k, v) :: kv2 :: kvs3, rest)
          rw [hM]
          rfl

theorem jsonParse_stringify (v : JValue) : jsonParse (jsonStringify v) = some v := by
  have hdf : digitFree [] := by intro c hc; simp at hc
  have hcost : cost v ≤ (stringifyChars v).length :=
    stringify_length_ge (sizeOf v) v le_rfl
  have h := (parse_stringify_aux ((stringifyChars v).length + 1)).1 v []
    (by omega) hdf
  rw [List.append_nil] at h
  rw [jsonParse]
  rw [show (jsonStringify v).data = stringifyChars v from rfl]
  rw [h]

theorem storedText_nonstring (v : JValue) (h : ∀ str, v ≠ .jStr str) :
    storedText v = jsonStringify v := by
  cases v with
  | jStr s => exact absurd rfl (h s)
  | jNull => rfl
  | jBool b => rfl
  | jNum n => rfl
  | jArr xs => rfl
  | jObj kvs => rfl

theorem ensureConnection_disposed (t : Store) :
    (ensureConnection t).disposed = t.disposed := by
  unfold ensureConnection
  by_cases h1 : t.connectionBound <;> by_cases h2 : t.schemaInitialized <;> simp [h1, h2]

theorem ensureConnection_keySize (t : Store) :
    (ensureConnection t).keySize = t.keySize := by
  unfold ensureConnection
  by_cases h1 : t.connectionBound <;> by_cases h2 : t.schemaInitialized <;> simp [h1, h2]

theorem validateKey_keySize_eq (s t : Store) (key : String)
    (h : t.keySize = s.keySize) : validateKey t key = validateKey s key := by
  unfold validateKey
  rw [h]

theorem sqlSelectByKey_insertReplace (db : List (String × String)) (k val : String) :
    sqlSelectByKey (insertReplace db k val) k = some val := by
  induction db with
  | nil => simp [insertReplace, sqlSelectByKey]
  | cons r0 rest ih =>
    by_cases h0 : r0.1 == k
    · rw [show insertReplace (r0 :: rest) k val =
        (k, val) :: rest from by
          rw [show r0 = (r0.1, r0.2) from rfl, insertReplace]
          simp [h0]]
      simp [sqlSelectByKey]
    · rw [show insertReplace (r0 :: rest) k val =
        r0 :: insertReplace rest k val from by
          rw [show r0 = (r0.1, r0.2) from rfl, insertReplace]
          simp [h0]]
      have h0f : (r0.1 == k) = false := by simpa using h0
      simp only [sqlSelectByKey, List.filter_cons, h0f, Bool.false_eq_true, if_false]
      exact ih

theorem set_ok_state (s : Store) (key : String) (v : JValue)
    (hd : s.disposed = false) (hk : validateKey s key = .ok ()) :
    (set s key v).1 = .ok true ∧
    (set s key v).2.db = insertReplace s.db key (storedText v) ∧
    (set s key v).2.disposed = s.disposed ∧
    (set s key v).2.keySize = s.keySize := by
  have hb : beginOperation s = .ok { s with pending := s.pending + 1 } := by
    simp [beginOperation, hd]
  have hkp : validateKey { s with pending := s.pending + 1 } key = .ok () := hk
  unfold set
  simp only [hb, hkp]
  simp only [logStmt, endOperation]
  refine ⟨by trivial, ?_, ?_, ?_⟩
  · simp [ensureConnection_db]
  · simp [ensureConnection_disposed]
  · simp [ensureConnection_keySize]

theorem get_ok_value (s : Store) (key : String)
    (hd : s.disposed = false) (hk : validateKey s key = .ok ()) :
    (get s key).1 = .ok (sqlSelectByKey s.db key) := by
  have hb : beginOperation s = .ok { s with pending := s.pending + 1 } := by
    simp [beginOperation, hd]
  have hkp : validateKey { s with pending := s.pending + 1 } key = .ok () := hk
  unfold get
  simp only [hb, hkp]
  simp only [logStmt, endOperation]
  simp [ensureConnection_db]

/-- C5 (counterexample): the round-trip claim fails for string values: with
the string value "true", `set` stores the payload "true" as-is and `get`
returns it, but JSON-parsing that payload yields the boolean `true`, which
is not deep-equal to the string value that was stored. -/
theorem string_value_roundtrip_fails :
    (get (set sampleStore "k" (.jStr "true")).2 "k").1 = .ok (some "true") ∧
    storedText (.jStr "true") = "true" ∧
    jsonParse "true" = some (.jBool true) ∧
    JValue.jBool true ≠ JValue.jStr "true" :=
  ⟨rfl, rfl, rfl, fun h => JValue.noConfusion h⟩

/-- C5 (amended): `set(k, v)` followed by `get(k)` yields exactly the stored
payload of `v` — `v` itself when `v` is a string (pass-through), the JSON
serialization of `v` otherwise — and for every non-string `v` that payload
JSON-parses back to a value deep-equal to `v`. -/
theorem set_get_roundtrip (s : Store) (key : String) (v : JValue)
    (hd : s.disposed = false) (hk : validateKey s key = .ok ()) :
    (get (set s key v).2 key).1 = .ok (some (storedText v)) ∧
    ((∀ str, v ≠ .jStr str) → jsonParse (storedText v) = some v) ∧
    (∀ str, v = .jStr str → storedText v = str) := by
  obtain ⟨hok, hdb, hdisp, hks⟩ := set_ok_state s key v hd hk
  refine ⟨?_, ?_, ?_⟩
  · have hd2 : (set s key v).2.disposed = false := by rw [hdisp]; exact hd
    have hk2 : validateKey (set s key v).2 key = .ok () := by
      rw [validateKey_keySize_eq s _ key hks]; exact hk
    rw [get_ok_value _ key hd2 hk2, hdb, sqlSelectByKey_insertReplace]
  · intro hns
    rw [storedText_nonstring v hns]
    exact jsonParse_stringify v
  · intro str hstr
    subst hstr
    rfl

theorem set_get_roundtrip_witness :
    sampleStore.disposed = false ∧
    validateKey sampleStore "k" = .ok () ∧
    (get (set sampleStore "k" (.jObj [("n", .jNum 1)])).2 "k").1 =
      .ok (some (storedText (.jObj [("n", .jNum 1)]))) :=
  ⟨rfl, rfl,
    (set_get_roundtrip sampleStore "k" (.jObj [("n", .jNum 1)]) rfl rfl).1⟩

end KeyvDuckDB
